import Mathlib

/-!
Shallow embedding of the decision logic of the ALMA download scripts
`alma.py` and `alma_w-hydrae.py`.

The scripts are one linear pipeline: prompt for a target and radius, query
the archive, pick a dataset, list its files, filter the file URLs, download
one file, extract it when it is a tarball, and plot the FITS image.  The
external collaborators (astroquery, astropy, matplotlib, the network) are
treated as black boxes; what is embedded here is the pure decision logic the
scripts themselves contain: string suffix tests, list filtering, the
input-validation loops, the extraction branch, the percentile contrast
bounds, and the order of resource events.

Numeric user input is modelled over `Rat` (exact rationals standing for the
real values the spec speaks of); machine floating point is not modelled.
-/

namespace Alma

/-- Python `str.lower()` as used on the ASCII URLs and file names here:
map every character to its lower-case form. -/
def lower (s : String) : String := ⟨s.data.map Char.toLower⟩

/-- Python `str.endswith(suff)`: `suff` is a suffix of `s` (case-sensitive,
exactly as the builtin is). -/
def endswith (s suff : String) : Bool := List.isSuffixOf suff.data s.data

/-- The test `url.lower().endswith(suff)` used by the list-comprehension
filters and by the FITS scan after extraction. -/
def lowerEndsWith (s suff : String) : Bool := endswith (lower s) suff

/-- alma.py lines 76-78 (same code in alma_w-hydrae.py lines 56-58):

    fits_urls = [url for url in info_table["access_url"] if url.lower().endswith(".fits")]
    if len(fits_urls) == 0:
        fits_urls = [url for url in info_table["access_url"] if url.lower().endswith(".tar.gz")]

The reassignment on length zero is rendered as the if-then-else on the
length of the first filter. -/
def fits_urls (access_url : List String) : List String :=
  if (access_url.filter fun url => lowerEndsWith url ".fits").length = 0 then
    access_url.filter fun url => lowerEndsWith url ".tar.gz"
  else
    access_url.filter fun url => lowerEndsWith url ".fits"

/-- alma.py lines 80-112, with the download client abstracted: if the
filtered list is empty the script raises
`RuntimeError("No FITS or tarball files found in this dataset.")` before any
download; otherwise `alma.download_files([first_file_url], ...)` runs on the
chosen URL.  The second component records every URL passed to
`alma.download_files`. -/
def fileStage (access_url : List String) (file_index : Nat)
    (download : String → String) : Except String String × List String :=
  if (fits_urls access_url).length = 0 then
    (Except.error "No FITS or tarball files found in this dataset.", [])
  else
    let first_file_url := (fits_urls access_url).getD file_index ""
    (Except.ok (download first_file_url), [first_file_url])

/-- A lowered string that ends in `".tar.gz"` cannot also end in `".fits"`:
the two suffixes are incomparable, yet any two suffixes of one string are
comparable. -/
theorem not_fits_of_targz {s : String} (h : lowerEndsWith s ".tar.gz" = true) :
    lowerEndsWith s ".fits" = false := by
  unfold lowerEndsWith endswith at *
  rw [List.isSuffixOf_iff_suffix] at h
  cases hf : List.isSuffixOf (".fits".data) ((lower s).data) with
  | false => rfl
  | true =>
    rw [List.isSuffixOf_iff_suffix] at hf
    rcases List.suffix_or_suffix_of_suffix h hf with h1 | h1
    · exact absurd h1 (by decide)
    · exact absurd h1 (by decide)

/-- C1: when the listing holds at least one URL ending case-insensitively in
".fits", the candidate list is exactly the image-extension entries, every
candidate is an image-extension URL from the listing, and every
".tar.gz"-extension URL of the listing is excluded. -/
theorem filtering_prefers_fits (urls : List String)
    (h : ∃ u ∈ urls, lowerEndsWith u ".fits" = true) :
    fits_urls urls = urls.filter (fun u => lowerEndsWith u ".fits") ∧
    (∀ u ∈ fits_urls urls, u ∈ urls ∧ lowerEndsWith u ".fits" = true) ∧
    (∀ u ∈ urls, lowerEndsWith u ".tar.gz" = true → u ∉ fits_urls urls) := by
  obtain ⟨u, hu, hfits⟩ := h
  have hne : (urls.filter fun u => lowerEndsWith u ".fits") ≠ [] := by
    intro hnil
    rw [List.filter_eq_nil_iff] at hnil
    exact absurd hfits (by simpa using hnil u hu)
  have heq : fits_urls urls = urls.filter (fun u => lowerEndsWith u ".fits") := by
    unfold fits_urls
    rw [if_neg]
    simpa [List.length_eq_zero] using hne
  refine ⟨heq, ?_, ?_⟩
  · intro v hv
    rw [heq, List.mem_filter] at hv
    exact ⟨hv.1, hv.2⟩
  · intro v _ htar hmem
    rw [heq, List.mem_filter] at hmem
    rw [not_fits_of_targz htar] at hmem
    exact Bool.false_ne_true hmem.2

/-- Concrete instance of `filtering_prefers_fits`: a two-entry listing with
one FITS URL and one tarball URL. -/
def c1Urls : List String := ["http://a/map.fits", "http://a/raw.tar.gz"]

theorem filtering_prefers_fits_witness :
    (∃ u ∈ c1Urls, lowerEndsWith u ".fits" = true) ∧
    (fits_urls c1Urls = c1Urls.filter (fun u => lowerEndsWith u ".fits") ∧
     (∀ u ∈ fits_urls c1Urls, u ∈ c1Urls ∧ lowerEndsWith u ".fits" = true) ∧
     (∀ u ∈ c1Urls, lowerEndsWith u ".tar.gz" = true → u ∉ fits_urls c1Urls)) :=
  ⟨by decide, filtering_prefers_fits c1Urls (by decide)⟩

/-- C2: when no URL of the listing ends case-insensitively in ".fits" but at
least one ends in ".tar.gz", the candidate list is exactly the
archive-extension entries of the listing. -/
theorem filtering_falls_back_to_targz (urls : List String)
    (h1 : ∀ u ∈ urls, lowerEndsWith u ".fits" = false)
    (h2 : ∃ u ∈ urls, lowerEndsWith u ".tar.gz" = true) :
    fits_urls urls = urls.filter (fun u => lowerEndsWith u ".tar.gz") := by
  unfold fits_urls
  rw [if_pos]
  rw [List.length_eq_zero, List.filter_eq_nil_iff]
  intro a ha
  simp [h1 a ha]

/-- Concrete instance of `filtering_falls_back_to_targz`: a listing with one
tarball URL and one unrelated URL. -/
def c2Urls : List String := ["http://a/raw.tar.gz", "http://a/readme.txt"]

theorem filtering_falls_back_to_targz_witness :
    (∀ u ∈ c2Urls, lowerEndsWith u ".fits" = false) ∧
    (∃ u ∈ c2Urls, lowerEndsWith u ".tar.gz" = true) ∧
    fits_urls c2Urls = c2Urls.filter (fun u => lowerEndsWith u ".tar.gz") :=
  ⟨by decide, by decide,
    filtering_falls_back_to_targz c2Urls (by decide) (by decide)⟩

/-- C3: when no URL of the listing matches either extension, the script
raises the explicit `RuntimeError` and no URL is ever passed to
`alma.download_files`. -/
theorem no_match_aborts_before_download (urls : List String)
    (h : ∀ u ∈ urls, lowerEndsWith u ".fits" = false ∧
      lowerEndsWith u ".tar.gz" = false)
    (file_index : Nat) (download : String → String) :
    fileStage urls file_index download =
      (Except.error "No FITS or tarball files found in this dataset.", []) := by
  have hempty : fits_urls urls = [] := by
    unfold fits_urls
    rw [if_pos]
    · rw [List.filter_eq_nil_iff]
      intro a ha
      simp [(h a ha).2]
    · rw [List.length_eq_zero, List.filter_eq_nil_iff]
      intro a ha
      simp [(h a ha).1]
  unfold fileStage
  rw [if_pos]
  rw [hempty]
  rfl

/-- Concrete instance of `no_match_aborts_before_download`: a listing with no
FITS and no tarball entry. -/
def c3Urls : List String := ["http://a/readme.txt", "http://a/notes.pdf"]

theorem no_match_aborts_before_download_witness :
    (∀ u ∈ c3Urls, lowerEndsWith u ".fits" = false ∧
      lowerEndsWith u ".tar.gz" = false) ∧
    fileStage c3Urls 0 (fun s => s) =
      (Except.error "No FITS or tarball files found in this dataset.", []) :=
  ⟨by decide, no_match_aborts_before_download c3Urls (by decide) 0 (fun s => s)⟩

/-- Python `os.path.join(d, n)` for the plain relative components used here
(`download_dir = "."`, a bare file name). -/
def pathJoin (d n : String) : String := d ++ "/" ++ n

/-- Python `os.path.basename(url)`: the part after the last slash. -/
def basename (s : String) : String :=
  ⟨(s.data.reverse.takeWhile fun c => !(c == '/')).reverse⟩

/-- The condition of alma.py line 118:
`downloaded_file.endswith(".tar.gz") or downloaded_file.endswith(".tar")`.
Note it is case-sensitive, unlike the lowered filter tests. -/
def isArchiveName (downloaded_file : String) : Bool :=
  endswith downloaded_file ".tar.gz" || endswith downloaded_file ".tar"

/-- alma.py lines 122-125: scan the download directory listing and keep the
first entry whose lowered name ends in ".fits", joined to the directory. -/
def firstFits : List String → Option String
  | [] => none
  | name :: rest =>
    if lowerEndsWith name ".fits" then some (pathJoin "." name)
    else firstFits rest

/-- alma.py lines 117-127: when the downloaded file name looks like a
tarball, `tar.extractall` runs (first component `true`) and the first FITS
entry of the directory listing becomes `fits_file`; otherwise the downloaded
file itself is `fits_file`, unchanged, and no extraction happens. -/
def extractStep (downloaded_file : String) (dir_listing : List String) :
    Bool × Option String :=
  if isArchiveName downloaded_file then (true, firstFits dir_listing)
  else (false, some downloaded_file)

/-- How the run ends after the download, seen from the script text:
`displayed` means control reaches the plotting calls with the given
`fits_file`; `explicitAbort` would be a scripted `raise RuntimeError(msg)`;
`uncaughtException` is an exception raised inside a library call. -/
inductive PostDownloadOutcome where
  | displayed (fits_file : String)
  | explicitAbort (msg : String)
  | uncaughtException
deriving DecidableEq

/-- True exactly on the `explicitAbort` outcome. -/
def isExplicitAbort : PostDownloadOutcome → Bool
  | PostDownloadOutcome.explicitAbort _ => true
  | _ => false

/-- alma.py lines 117-135: after the extraction branch, `fits_file` is opened
with `fits.open`.  The segment contains no `raise` statement at all (the only
scripted raises are at lines 41 and 81, before the download), so when the
scan finds no FITS entry `fits_file` is still `None` and
`fits.open(None)` raises an exception inside astropy, which nothing
catches. -/
def postDownload (downloaded_file : String) (dir_listing : List String) :
    PostDownloadOutcome :=
  match (extractStep downloaded_file dir_listing).2 with
  | none => PostDownloadOutcome.uncaughtException
  | some f => PostDownloadOutcome.displayed f

/-- `firstFits` returns the head of the filtered listing, joined to the
download directory. -/
theorem firstFits_eq_head_filter (l : List String) :
    firstFits l =
      ((l.filter fun n => lowerEndsWith n ".fits").head?).map (pathJoin ".") := by
  induction l with
  | nil => rfl
  | cons n rest ih =>
    unfold firstFits
    rw [List.filter_cons]
    cases h : lowerEndsWith n ".fits" with
    | false => simpa [h] using ih
    | true => simp [h]

/-- C7: the extraction branch runs exactly on ".tar.gz"/".tar" names; it then
selects the first directory entry whose lowered name ends in ".fits" (joined
to the download directory), and otherwise passes the downloaded file through
unchanged with no extraction. -/
theorem extraction_branch_spec (downloaded_file : String)
    (dir_listing : List String) :
    extractStep downloaded_file dir_listing =
      (if isArchiveName downloaded_file then
        (true,
          ((dir_listing.filter fun n => lowerEndsWith n ".fits").head?).map
            (pathJoin "."))
      else (false, some downloaded_file)) := by
  unfold extractStep
  cases h : isArchiveName downloaded_file with
  | false => simp [h]
  | true => simp [h, firstFits_eq_head_filter]

/-- C4 counterexample: a tarball whose extraction yields no FITS file.  The
run ends in an uncaught library exception, not in a scripted abort with a
message. -/
theorem no_fits_after_extract_is_uncaught :
    postDownload "member.tar.gz" ["readme.txt", "weblog.html"] =
      PostDownloadOutcome.uncaughtException ∧
    isExplicitAbort (postDownload "member.tar.gz" ["readme.txt", "weblog.html"]) =
      false := by
  constructor
  · rfl
  · rfl

/-- C4 amended: whenever the downloaded name takes the extraction branch and
no entry of the directory listing has a lowered ".fits" suffix, the script
reaches `fits.open(None)` and dies with an uncaught exception; it never
produces an explicit abort in this segment. -/
theorem no_fits_after_extract_amended (downloaded_file : String)
    (dir_listing : List String)
    (h1 : isArchiveName downloaded_file = true)
    (h2 : ∀ n ∈ dir_listing, lowerEndsWith n ".fits" = false) :
    postDownload downloaded_file dir_listing =
      PostDownloadOutcome.uncaughtException := by
  have hnone : firstFits dir_listing = none := by
    rw [firstFits_eq_head_filter]
    have : dir_listing.filter (fun n => lowerEndsWith n ".fits") = [] := by
      rw [List.filter_eq_nil_iff]
      intro a ha
      simp [h2 a ha]
    rw [this]
    rfl
  unfold postDownload extractStep
  rw [h1]
  simp [hnone]

theorem no_fits_after_extract_amended_witness :
    (isArchiveName "member.tar" = true) ∧
    (∀ n ∈ ["readme.txt"], lowerEndsWith n ".fits" = false) ∧
    postDownload "member.tar" ["readme.txt"] =
      PostDownloadOutcome.uncaughtException :=
  ⟨by decide, by decide,
    no_fits_after_extract_amended "member.tar" ["readme.txt"] (by decide)
      (by decide)⟩

/-- Resource events of the tail of alma.py (lines 117-149), in the order the
statements appear.  `tarClose` is emitted by leaving the
`with tarfile.open(...) as tar` block; a `fitsClose` event would correspond
to an `hdul.close()` call or a `with fits.open(...)` block, neither of which
appears anywhere in either script. -/
inductive Event where
  | tarOpen
  | tarExtractAll
  | tarClose
  | fitsOpen
  | dataRead
  | fitsClose
  | plotShow
  | scriptEnd
deriving DecidableEq, BEq

/-- The event trace of alma.py lines 117-149, with `is_archive` the value of
the line 118 condition: the tar handle is opened, drained and closed inside
the `with` block (archive case only), then `hdul = fits.open(fits_file)`,
`data = hdul[0].data`, the plot, `plt.show()`, and the end of the script.
No statement closes `hdul`. -/
def scriptTailTrace (is_archive : Bool) : List Event :=
  (if is_archive then [Event.tarOpen, Event.tarExtractAll, Event.tarClose]
   else [])
  ++ [Event.fitsOpen, Event.dataRead, Event.plotShow, Event.scriptEnd]

/-- C8 counterexample: on an archive run the trace holds no close event for
the image-file handle at all, in particular none between the data read and
the end of the script. -/
theorem hdul_never_closed :
    (scriptTailTrace true).contains Event.fitsClose = false := by
  decide

/-- C8 amended: the tar handle is closed at the end of the extraction step,
before the image file is opened, but the image-file handle is never
explicitly closed in either branch; it stays open until the script ends. -/
theorem tar_scoped_hdul_leaked :
    scriptTailTrace true =
      [Event.tarOpen, Event.tarExtractAll, Event.tarClose, Event.fitsOpen,
        Event.dataRead, Event.plotShow, Event.scriptEnd] ∧
    scriptTailTrace false =
      [Event.fitsOpen, Event.dataRead, Event.plotShow, Event.scriptEnd] ∧
    (scriptTailTrace true).contains Event.fitsClose = false ∧
    (scriptTailTrace false).contains Event.fitsClose = false := by
  decide

/-- One row of the file listing table returned by
`alma.get_data_info(selected_uid, expand_tarfiles=True)`: the three columns
the script reads. -/
structure FileRecord where
  access_url : String
  access_format : String
  access_estsize : Nat
deriving DecidableEq

/-- alma.py lines 83-89: the display loop iterates over the FILTERED url list
`fits_urls`, but reads `access_format` and `access_estsize` at position `i`
of the UNFILTERED `info_table`:

    for i, url in enumerate(fits_urls):
        fname = os.path.basename(url)
        fmt = info_table["access_format"][i] ...
        size = info_table["access_estsize"][i] ...

Each produced row is (file name shown, format shown, size shown). -/
def displayRows (info_table : List FileRecord) : List (String × String × Nat) :=
  ((fits_urls (info_table.map FileRecord.access_url)).enum).map fun p =>
    (basename p.2, (info_table.getD p.1 ⟨"", "", 0⟩).access_format,
      (info_table.getD p.1 ⟨"", "", 0⟩).access_estsize)

/-- A listing on which the display metadata is misaligned: the tarball row
comes first in the table, filtering keeps only the FITS url, so row 0 of the
display pairs the FITS file name with the tarball row's format and size. -/
def c9Table : List FileRecord :=
  [⟨"http://a/obs.tar.gz", "application/x-tar", 100⟩,
   ⟨"http://a/map.fits", "image/fits", 200⟩]

/-- C9: on `c9Table` the single displayed row shows the FITS file name
together with format "application/x-tar" and size 100, which belong to the
tarball row; the row that actually holds that url carries format
"image/fits" and size 200. -/
theorem display_metadata_misaligned :
    displayRows c9Table = [("map.fits", "application/x-tar", 100)] ∧
    (c9Table.filter fun r => r.access_url == "http://a/map.fits") =
      [⟨"http://a/map.fits", "image/fits", 200⟩] ∧
    (("application/x-tar" == "image/fits") = false ∧ ((100 : Nat) == 200) = false) := by
  constructor
  · rfl
  · constructor
    · rfl
    · decide

/-- C10: the filter test lowercases (an upper-case ".TAR.GZ" url is kept as a
candidate) but the extraction test at line 118 is case-sensitive, so a
downloaded file named "data.TAR.GZ" skips the extraction branch and is itself
handed to `fits.open` as the image file. -/
theorem uppercase_archive_skips_extraction :
    fits_urls ["http://a/data.TAR.GZ"] = ["http://a/data.TAR.GZ"] ∧
    isArchiveName "data.TAR.GZ" = false ∧
    extractStep "data.TAR.GZ" ["inner.fits"] = (false, some "data.TAR.GZ") ∧
    postDownload "data.TAR.GZ" ["inner.fits"] =
      PostDownloadOutcome.displayed "data.TAR.GZ" := by
  refine ⟨?_, ?_, ?_, ?_⟩ <;> rfl

/-- Numeric value of a list of decimal digit characters. -/
def digitsToNat (cs : List Char) : Nat :=
  cs.foldl (fun a c => a * 10 + (c.toNat - 48)) 0

/-- An optional leading sign, returned with the remaining characters. -/
def parseSign : List Char → Int × List Char
  | '+' :: r => (1, r)
  | '-' :: r => (-1, r)
  | r => (1, r)

/-- Python `int(s)` on the strings fed to the index prompts: surrounding
whitespace ignored, an optional sign, then at least one decimal digit.
Digit-group underscores, accepted by CPython, are not modelled. -/
def pyInt (s : String) : Option Int :=
  let p := parseSign s.trim.data
  if p.2 ≠ [] ∧ p.2.all Char.isDigit then
    some (p.1 * (digitsToNat p.2 : Int))
  else none

/-- An unsigned decimal mantissa: digits with at most one point and at least
one digit overall, e.g. "12", "12.", ".5", "3.25", as the exact rational it
denotes. -/
def parseUnsignedDec (cs : List Char) : Option Rat :=
  match cs.splitOn '.' with
  | [ip] => if ip ≠ [] ∧ ip.all Char.isDigit then some (digitsToNat ip) else none
  | [ip, fp] =>
    if (ip ≠ [] ∨ fp ≠ []) ∧ ip.all Char.isDigit ∧ fp.all Char.isDigit then
      some ((digitsToNat (ip ++ fp) : Rat) / (10 : Rat) ^ fp.length)
    else none
  | _ => none

/-- Python `float(s)` on finite decimal literals: whitespace ignored, an
optional sign, a decimal mantissa and an optional exponent part, valued as
the exact rational the literal denotes.  The special spellings
inf/infinity/nan and digit-group underscores are not modelled, nor is the
rounding to binary double precision. -/
def pyFloat (s : String) : Option Rat :=
  let sp := parseSign s.trim.data
  let mt := sp.2.span fun c => !(c == 'e' || c == 'E')
  match parseUnsignedDec mt.1 with
  | none => none
  | some m =>
    match mt.2 with
    | [] => some ((sp.1 : Rat) * m)
    | _ :: ex =>
      let ep := parseSign ex
      if ep.2 ≠ [] ∧ ep.2.all Char.isDigit then
        some ((sp.1 : Rat) * m * (10 : Rat) ^ (ep.1 * (digitsToNat ep.2 : Int)))
      else none

/-- alma.py lines 16-25: the radius prompt loop, run over a finite queue of
user inputs.  Each raw input is stripped, parsed with `float` (ValueError
caught inside the loop), accepted when strictly positive, and otherwise the
loop prints a message and prompts again.  `none` means the queue ran out
with no valid value: the real loop would still be prompting; no exception
escapes it. -/
def radiusLoop : List String → Option Rat
  | [] => none
  | s :: rest =>
    match pyFloat s.trim with
    | some radius => if radius > 0 then some radius else radiusLoop rest
    | none => radiusLoop rest

/-- alma.py lines 58-67 and 94-103 (and the same loops in alma_w-hydrae.py):
the index prompt loop with `count` items available.  Each input is parsed
with `int` (ValueError caught inside the loop) and accepted when
`0 <= i < count`. -/
def indexLoop (count : Nat) : List String → Option Int
  | [] => none
  | s :: rest =>
    match pyInt s with
    | some i => if 0 ≤ i ∧ i < (count : Int) then some i else indexLoop count rest
    | none => indexLoop count rest

/-- The first queue entry that parses as a strictly positive number, as the
spec words the radius contract. -/
def firstValidRadius (inputs : List String) : Option Rat :=
  (inputs.filterMap fun s =>
    match pyFloat s.trim with
    | some r => if r > 0 then some r else none
    | none => none).head?

/-- The first queue entry that parses as an integer within `[0, count)`, as
the spec words the index contract. -/
def firstValidIndex (count : Nat) (inputs : List String) : Option Int :=
  (inputs.filterMap fun s =>
    match pyInt s with
    | some i => if 0 ≤ i ∧ i < (count : Int) then some i else none
    | none => none).head?

/-- C5: both validation loops skip every input that fails to parse or is out
of range and yield exactly the first valid value of the queue (and `none`
when the queue holds none); being total functions into `Option`, no
exception escapes them. -/
theorem validation_loops_yield_first_valid (inputs : List String) (count : Nat) :
    radiusLoop inputs = firstValidRadius inputs ∧
    indexLoop count inputs = firstValidIndex count inputs := by
  constructor
  · induction inputs with
    | nil => rfl
    | cons s rest ih =>
      rw [show radiusLoop (s :: rest) =
          (match pyFloat s.trim with
           | some radius => if radius > 0 then some radius else radiusLoop rest
           | none => radiusLoop rest) from rfl]
      unfold firstValidRadius
      rw [List.filterMap_cons]
      cases h : pyFloat s.trim with
      | none =>
        simp only [h]
        exact ih
      | some r =>
        by_cases hr : r > 0
        · simp [h, hr]
        · simp only [h, if_neg hr]
          exact ih
  · induction inputs with
    | nil => rfl
    | cons s rest ih =>
      rw [show indexLoop count (s :: rest) =
          (match pyInt s with
           | some i => if 0 ≤ i ∧ i < (count : Int) then some i
             else indexLoop count rest
           | none => indexLoop count rest) from rfl]
      unfold firstValidIndex
      rw [List.filterMap_cons]
      cases h : pyInt s with
      | none =>
        simp only [h]
        exact ih
      | some i =>
        by_cases hi : 0 ≤ i ∧ i < (count : Int)
        · simp [h, hi]
        · simp only [h, if_neg hi]
          exact ih

/-- The pixel values in ascending order (numpy sorts before taking a
percentile). -/
def sortedVals (xs : List Rat) : List Rat := List.insertionSort (· ≤ ·) xs

/-- The fractional order-statistic position `q / 100 * (n - 1)` used by
`np.percentile` with its default linear interpolation. -/
def pctPos (xs : List Rat) (q : Rat) : Rat := q * ((xs.length : Rat) - 1) / 100

/-- `np.percentile(a, q)` with the default linear interpolation, over the
flattened array modelled as a list of exact rationals: sort ascending and
interpolate linearly between the order statistics on either side of position
`q / 100 * (n - 1)`; when that position is the last index the value there is
returned as is.  `none` on an empty array, where numpy raises. -/
def percentile (xs : List Rat) (q : Rat) : Option Rat :=
  match xs with
  | [] => none
  | _ :: _ =>
    ((sortedVals xs)[(⌊pctPos xs q⌋).toNat]?).map fun a =>
      a + (pctPos xs q - ((⌊pctPos xs q⌋).toNat : Rat)) *
        (((sortedVals xs)[(⌊pctPos xs q⌋).toNat + 1]?).getD a - a)

/-- alma.py line 142: `vmin = np.percentile(data_2d, 1)`. -/
def vmin (data_2d : List Rat) : Option Rat := percentile data_2d 1

/-- alma.py line 143: `vmax = np.percentile(data_2d, 99)`. -/
def vmax (data_2d : List Rat) : Option Rat := percentile data_2d 99

/-- alma.py line 144: the lower bound handed to `LogNorm` is
`max(vmin, 1e-10)`, with the float literal read as the exact rational
10 ^ (-10). -/
def lognormVmin (data_2d : List Rat) : Option Rat :=
  (vmin data_2d).map fun v => max v ((1 : Rat) / 10 ^ 10)

/-- On a nonempty array and a percentile rank within [0, 100] the
interpolation position stays within the index range, so `percentile`
returns a value. -/
theorem percentile_isSome (xs : List Rat) (q : Rat) (hne : xs ≠ [])
    (h0 : 0 ≤ q) (h100 : q ≤ 100) : ∃ v, percentile xs q = some v := by
  obtain ⟨x, t, rfl⟩ := List.exists_cons_of_ne_nil hne
  have hn : 1 ≤ (x :: t).length := by simp
  have hc : (0 : Rat) ≤ ((x :: t).length : Rat) - 1 := by
    have h1 : (1 : Rat) ≤ ((x :: t).length : Rat) := by exact_mod_cast hn
    linarith
  have hposle : pctPos (x :: t) q ≤ ((x :: t).length : Rat) - 1 := by
    unfold pctPos
    rw [div_le_iff₀ (by norm_num : (0 : Rat) < 100)]
    nlinarith [mul_le_mul_of_nonneg_right h100 hc]
  have hfloor : ⌊pctPos (x :: t) q⌋ ≤ ((x :: t).length : Int) - 1 := by
    have h2 := Int.floor_le_floor hposle
    rwa [show (((x :: t).length : Rat) - 1) =
        (((((x :: t).length : Int) - 1 : Int)) : Rat) by push_cast; ring,
      Int.floor_intCast] at h2
  have hlolt : (⌊pctPos (x :: t) q⌋).toNat < (sortedVals (x :: t)).length := by
    unfold sortedVals
    rw [List.length_insertionSort]
    omega
  have hsome : (sortedVals (x :: t))[(⌊pctPos (x :: t) q⌋).toNat]? =
      some ((sortedVals (x :: t)).get ⟨(⌊pctPos (x :: t) q⌋).toNat, hlolt⟩) := by
    rw [List.getElem?_eq_getElem hlolt]
    rfl
  unfold percentile
  rw [hsome]
  exact ⟨_, rfl⟩

/-- Reduction of `percentile` on a nonempty list, stated for rewriting. -/
theorem percentile_cons (x : Rat) (t : List Rat) (q : Rat) :
    percentile (x :: t) q =
      ((sortedVals (x :: t))[(⌊pctPos (x :: t) q⌋).toNat]?).map fun a =>
        a + (pctPos (x :: t) q - ((⌊pctPos (x :: t) q⌋).toNat : Rat)) *
          (((sortedVals (x :: t))[(⌊pctPos (x :: t) q⌋).toNat + 1]?).getD a - a) :=
  rfl

/-- C6: for every nonempty pixel array the display bounds are the 1st and
99th percentile of the values, with the lower bound passed to the log scale
clamped from below at 1e-10. -/
theorem display_bounds_percentiles (pixels : List Rat) (h : pixels ≠ []) :
    ∃ p1 p99, percentile pixels 1 = some p1 ∧ percentile pixels 99 = some p99 ∧
      lognormVmin pixels = some (max p1 ((1 : Rat) / 10 ^ 10)) ∧
      vmax pixels = some p99 := by
  obtain ⟨p1, hp1⟩ := percentile_isSome pixels 1 h (by norm_num) (by norm_num)
  obtain ⟨p99, hp99⟩ := percentile_isSome pixels 99 h (by norm_num) (by norm_num)
  refine ⟨p1, p99, hp1, hp99, ?_, hp99⟩
  unfold lognormVmin vmin
  rw [hp1]
  rfl

/-- A synthetic five-pixel array with known percentiles. -/
def c6Pixels : List Rat := [30, 10, 50, 20, 40]

/-- Round-trip check of the percentile model on `c6Pixels`: sorted values
10, 20, 30, 40, 50 give 10.4 at rank 1 and 49.6 at rank 99. -/
theorem percentile_roundtrip :
    percentile c6Pixels 1 = some (52 / 5) ∧
    percentile c6Pixels 99 = some (248 / 5) ∧
    lognormVmin c6Pixels = some (52 / 5) ∧
    vmax c6Pixels = some (248 / 5) := by
  have hs : sortedVals c6Pixels = [10, 20, 30, 40, 50] := by decide
  have hp1 : pctPos c6Pixels 1 = 1 / 25 := by norm_num [pctPos, c6Pixels]
  have hp99 : pctPos c6Pixels 99 = 99 / 25 := by norm_num [pctPos, c6Pixels]
  have hf1 : (⌊pctPos c6Pixels 1⌋).toNat = 0 := by rw [hp1]; norm_num
  have hf99 : (⌊pctPos c6Pixels 99⌋).toNat = 3 := by
    rw [hp99]
    norm_num
    decide
  have e1 : percentile c6Pixels 1 = some (52 / 5) := by
    rw [show percentile c6Pixels 1 = percentile (30 :: [10, 50, 20, 40]) 1
        from rfl, percentile_cons,
      show ((30 : Rat) :: [10, 50, 20, 40]) = c6Pixels from rfl, hf1, hs, hp1]
    norm_num
  have e99 : percentile c6Pixels 99 = some (248 / 5) := by
    rw [show percentile c6Pixels 99 = percentile (30 :: [10, 50, 20, 40]) 99
        from rfl, percentile_cons,
      show ((30 : Rat) :: [10, 50, 20, 40]) = c6Pixels from rfl, hf99, hs, hp99]
    norm_num
  refine ⟨e1, e99, ?_, e99⟩
  unfold lognormVmin vmin
  rw [e1]
  norm_num

theorem display_bounds_percentiles_witness :
    c6Pixels ≠ [] ∧
    (∃ p1 p99, percentile c6Pixels 1 = some p1 ∧
      percentile c6Pixels 99 = some p99 ∧
      lognormVmin c6Pixels = some (max p1 ((1 : Rat) / 10 ^ 10)) ∧
      vmax c6Pixels = some p99) :=
  ⟨by decide, display_bounds_percentiles c6Pixels (by decide)⟩

end Alma
